import Mathlib

/-!
Verification of the 1:1 peer-call signalling engine of hydrogen-web
(src/src/matrix/calls/PeerCall.ts) against its natural-language
specification.

The TypeScript class `PeerCall` is shallowly embedded: the mutable fields of
the class become a Lean structure `PeerCall`; each method becomes a pure
function from the pre-state to the post-state paired with a trace of the
externally observable actions it performs (host hooks, peer-connection calls,
timer arming).  `await`-ed external calls whose outcome the method branches on
(promise resolution vs rejection, the number of remote tracks, the ICE
gathering state) are passed in as explicit oracle arguments.  Methods are run
sequentially (the source's scheduling model is single-threaded cooperative);
where a claim is about the interleaving discipline itself (the negotiation
promise chain) a dedicated transition system is used.

Some bodies in the source file are empty stubs (`terminate`, `hangup`, the
`EventType.Hangup` switch case) or missing entirely
(`handleRemoteIceCandidates`, `recursivelyAssign`); those are modelled from
the spec and are marked with a doc comment starting `Modelled from the spec:`.
Everything else is translated directly from the source.
-/

namespace HydrogenCalls

/-- The `CallState` enum of PeerCall.ts (lines 530-540). -/
inductive CallState
  | Fledgling
  | InviteSent
  | WaitLocalMedia
  | CreateOffer
  | CreateAnswer
  | Connecting
  | Connected
  | Ringing
  | Ended
deriving DecidableEq, Repr

/-- The `CallParty` enum of PeerCall.ts (lines 525-528). -/
inductive CallParty
  | Local
  | Remote
deriving DecidableEq, Repr

/-- The `CallDirection` enum of PeerCall.ts (lines 542-545). -/
inductive CallDirection
  | Inbound
  | Outbound
deriving DecidableEq, Repr

/-- The `CallErrorCode` enum of PeerCall.ts (lines 562-646). -/
inductive CallErrorCode
  | UserHangup
  | LocalOfferFailed
  | NoUserMedia
  | UnknownDevices
  | SendInvite
  | CreateAnswer
  | SendAnswer
  | SetRemoteDescription
  | SetLocalDescription
  | AnsweredElsewhere
  | IceFailed
  | InviteTimeout
  | Replaced
  | SignallingFailed
  | UserBusy
  | Transfered
  | NewSession
deriving DecidableEq, Repr

/-- PeerCall.ts line 523: `type PartyId = string | null`.  `none` models the
legacy `null` party id of pre-MSC2746 1:1 calls. -/
abbrev PartyId := Option String

/-- JavaScript truthiness of a `PartyId` value: `null` and the empty string
are falsy.  Used because PeerCall.ts line 423 guards on
`this.opponentPartyId` being truthy. -/
def partyIdTruthy : PartyId → Bool
  | none => false
  | some s => s ≠ ""

/-- Truthiness of the optional `opponentPartyId` class field (line 52,
`opponentPartyId?: PartyId`): `undefined` (outer `none`) is falsy, and a
present value is truthy per `partyIdTruthy`. -/
def opponentTruthy : Option PartyId → Bool
  | none => false
  | some p => partyIdTruthy p

/-- An RTCIceCandidate as used by PeerCall.ts: only the fields the code reads.
`none` in `sdpMid` / `sdpMLineIndex` models both `null` and `undefined`,
which lines 437-438 treat identically. -/
structure RTCIceCandidate where
  candidate : String := ""
  sdpMid : Option String := none
  sdpMLineIndex : Option Nat := none
deriving DecidableEq, Repr

/-- The `SDPStreamMetadataPurpose` values used by the code. -/
inductive SDPStreamMetadataPurpose
  | Usermedia
  | Screenshare
deriving DecidableEq, Repr

/-- One entry of the SDP stream metadata map: purpose and mute flags. -/
structure StreamMetadataEntry where
  purpose : SDPStreamMetadataPurpose := .Usermedia
  audio_muted : Bool := false
  video_muted : Bool := false
deriving DecidableEq, Repr

/-- The stream-metadata map, keyed by stream id, kept as an association list
in insertion order. -/
abbrev SDPStreamMetadata := List (String × StreamMetadataEntry)

/-- A local media track; only its identity matters to the embedded claims. -/
structure Track where
  id : String
deriving DecidableEq, Repr

/-- The `LocalMedia` handle as consumed by PeerCall.ts: the track list and the
value returned by `getSDPMetadata()`. -/
structure LocalMedia where
  tracks : List Track := []
  sdpMetadata : SDPStreamMetadata := []
deriving DecidableEq, Repr

/-- Outbound signalling messages handed to `handler.sendSignallingMessage`,
carrying the payload parts the claims refer to. -/
inductive OutMessage
  | invite (metadata : SDPStreamMetadata) (lifetime : Nat)
  | answer (metadata : SDPStreamMetadata)
  | candidates (cs : List RTCIceCandidate)
  | hangup (reason : CallErrorCode)
deriving DecidableEq, Repr

/-- Externally observable actions of a PeerCall method: host hooks,
peer-connection calls, track operations and timer arming. -/
inductive Ev
  | SetState (s : CallState)
  | EmitUpdate
  | SendMsg (m : OutMessage)
  | AddTrack (t : Track)
  | StopTrack (t : Track)
  | AddIceCandidate (c : RTCIceCandidate)
  | SetRemoteDesc
  | SetLocalDesc
  | ClosePC
  | CancelTimers
  | MergeMetadata
  | Delay (ms : Nat)
deriving DecidableEq, Repr

/-- The mutable state of one `PeerCall` object (fields of the class,
PeerCall.ts lines 37-55).  `hangupReason` is carried here because the spec's
`terminate` records it; the source class declares `hangupParty` (line 53) and
leaves the reason to `terminate`.  `pcClosed` models
`peerConnection.signalingState == closed`, and `timersCancelled` the state of
the `disposables` tracker. -/
structure PeerCall where
  state : CallState := .Fledgling
  direction : Option CallDirection := none
  candidateSendQueue : List RTCIceCandidate := []
  remoteCandidateBuffer : Option (List (PartyId × List RTCIceCandidate)) := some []
  remoteSDPStreamMetadata : Option SDPStreamMetadata := none
  opponentPartyId : Option PartyId := none
  hangupParty : Option CallParty := none
  hangupReason : Option CallErrorCode := none
  localMedia : LocalMedia := {}
  pcClosed : Bool := false
  timersCancelled : Bool := false
deriving DecidableEq, Repr

/-- Embedding of `CALL_TIMEOUT_MS` (PeerCall.ts line 657). -/
def CALL_TIMEOUT_MS : Nat := 60000

/-- Embedding of `setState` (PeerCall.ts lines 455-464): assigns the state, resolves any
waiter of that state (not modelled: the `statePromiseMap` bookkeeping has no
observable effect needed by the claims) and calls `handler.emitUpdate`. -/
def setState (s : CallState) (pc : PeerCall) : PeerCall × List Ev :=
  ({ pc with state := s }, [Ev.SetState s, Ev.EmitUpdate])

/-- Embedding of `stopAllMedia` (PeerCall.ts lines 483-487): stops every local track. -/
def stopAllMedia (pc : PeerCall) : List Ev :=
  pc.localMedia.tracks.map Ev.StopTrack

/-- Modelled from the spec: the body of `PeerCall.terminate` is empty in the
source (PeerCall.ts lines 479-481; only the declaration with its
`(hangupParty, hangupReason, shouldEmit)` signature is present).  The steps
are taken from spec section 4.9: if already Ended return; otherwise set
`hangupParty` and `hangupReason` and transition to Ended, stop all local
tracks, close the peer connection if not already closed, cancel all
outstanding delays, and call `emitUpdate` iff `shouldEmit`.  Step 7
(resolving awaiters of Ended) has no observable effect modelled here. -/
def terminate (party : CallParty) (reason : CallErrorCode) (shouldEmit : Bool)
    (pc : PeerCall) : PeerCall × List Ev :=
  if pc.state = .Ended then (pc, [])
  else
    ({ pc with
        state := .Ended
        hangupParty := some party
        hangupReason := some reason
        pcClosed := true
        timersCancelled := true },
      [Ev.SetState .Ended]
        ++ stopAllMedia pc
        ++ (if pc.pcClosed then [] else [Ev.ClosePC])
        ++ [Ev.CancelTimers]
        ++ (if shouldEmit then [Ev.EmitUpdate] else []))

/-- Modelled from the spec: the body of `PeerCall.hangup` is empty in the
source (PeerCall.ts lines 159-161).  Spec sections 4.1 and 9(a) prescribe:
send a Hangup message (unless already Ended), then `terminate(Local, reason,
emit=true)`. -/
def hangup (reason : CallErrorCode) (pc : PeerCall) : PeerCall × List Ev :=
  if pc.state = .Ended then (pc, [])
  else
    let r := terminate .Local reason true pc
    (r.1, Ev.SendMsg (.hangup reason) :: r.2)

/-- Embedding of `addIceCandidates` (PeerCall.ts lines 434-452): adds each candidate to the
peer connection in order, skipping a candidate whose `sdpMid` and
`sdpMLineIndex` are both unset; a failing `addIceCandidate` is caught and
logged (no state effect), so the call sequence is the whole trace. -/
def addIceCandidates (cs : List RTCIceCandidate) : List Ev :=
  cs.filterMap fun c =>
    if c.sdpMid = none ∧ c.sdpMLineIndex = none then none
    else some (Ev.AddIceCandidate c)

/-- Lookup in the `remoteCandidateBuffer` map (insertion-ordered association
list), as `Map.get` does at PeerCall.ts line 424. -/
def bufLookup (buf : List (PartyId × List RTCIceCandidate)) (p : PartyId) :
    Option (List RTCIceCandidate) :=
  (buf.find? fun e => e.1 = p).map Prod.snd

/-- Embedding of `addBufferedIceCandidates` (PeerCall.ts lines 422-432): when the buffer is
present and `opponentPartyId` is truthy, the candidates buffered under exactly
the opponent party id are added and the whole buffer is destroyed; note the
JavaScript truthiness guard `this.remoteCandidateBuffer && this.opponentPartyId`
on line 423, under which the legacy `null` party id (and the empty string) is
falsy. -/
def addBufferedIceCandidates (pc : PeerCall) : PeerCall × List Ev :=
  match pc.remoteCandidateBuffer with
  | none => (pc, [])
  | some buf =>
    if opponentTruthy pc.opponentPartyId then
      let evs :=
        match pc.opponentPartyId with
        | some p =>
          match bufLookup buf p with
          | some cs => addIceCandidates cs
          | none => []
        | none => []
      ({ pc with remoteCandidateBuffer := none }, evs)
    else (pc, [])

/-- One map-update step of the stream-metadata merge: overwrite the entry of
`k` if present, else append. -/
def sdpSet (m : SDPStreamMetadata) (k : String) (v : StreamMetadataEntry) :
    SDPStreamMetadata :=
  if m.any fun e => e.1 = k then
    m.map fun e => if e.1 = k then (k, v) else e
  else m ++ [(k, v)]

/-- Modelled from the spec: `recursivelyAssign` (imported at PeerCall.ts line
18) is not among the provided sources; spec sections 4.4 and 9 describe the
merge as a one-level, later-wins overwrite of the existing map keyed by
stream id. -/
def sdpMerge (old incoming : SDPStreamMetadata) : SDPStreamMetadata :=
  incoming.foldl (fun acc e => sdpSet acc e.1 e.2) old

/-- Embedding of `updateRemoteSDPStreamMetadata` (PeerCall.ts lines 405-419): merges the
incoming metadata into `remoteSDPStreamMetadata`, then notifies the peer
connection and reapplies mute state to the remote tracks; the remote tracks
are owned by the peer connection and their re-evaluation is abstracted into
the single `MergeMetadata` action. -/
def updateRemoteSDPStreamMetadata (md : SDPStreamMetadata) (pc : PeerCall) :
    PeerCall × List Ev :=
  ({ pc with
      remoteSDPStreamMetadata :=
        some (sdpMerge (pc.remoteSDPStreamMetadata.getD []) md) },
    [Ev.MergeMetadata])

/-- The content of an inbound Invite (PeerCall.ts lines 672-677): offer,
optional stream metadata, optional lifetime.  The offer payload itself is
opaque to the state machine. -/
structure InviteContent where
  metadata : Option SDPStreamMetadata := none
  lifetime : Option Nat := none
deriving DecidableEq, Repr

/-- The content of an inbound Answer (PeerCall.ts lines 684-692). -/
structure AnswerContent where
  metadata : Option SDPStreamMetadata := none
deriving DecidableEq, Repr

/-- The content of an inbound Candidates message (PeerCall.ts lines 699-701). -/
structure CandidatesContent where
  candidates : List RTCIceCandidate := []
deriving DecidableEq, Repr

/-- Inbound signalling message kinds, tagged as in the `EventType` enum
(PeerCall.ts lines 547-560); the first three carry the content the handlers
read, the rest are kinds the dispatch switch has no case for (plus Hangup,
whose case is empty in the source). -/
inductive SignallingMessage
  | invite (c : InviteContent)
  | answer (c : AnswerContent)
  | candidates (c : CandidatesContent)
  | hangupMsg
  | reject
  | selectAnswer
  | negotiate
  | sdpStreamMetadataChanged
  | replaces
  | assertedIdentity
deriving DecidableEq, Repr

/-- Embedding of `sendCandidateQueue` (PeerCall.ts lines 379-403): returns immediately when
the queue is empty or the call has Ended; otherwise takes the whole queue,
clears it, and sends it as one Candidates message.  On success it calls
itself again (to catch candidates that arrived during the send; `fuel` bounds
that recursion, and in this sequential embedding no candidate arrives during
the await so the recursive call sees an empty queue).  On failure it calls
`terminate(Local, SignallingFailed, false)` without requeueing the candidates
(the source comment at line 400 mentions requeueing but the code does not do
it). -/
def sendCandidateQueue (sendOk : Bool) : Nat → PeerCall → PeerCall × List Ev
  | 0, pc => (pc, [])
  | fuel + 1, pc =>
    if pc.candidateSendQueue = [] ∨ pc.state = .Ended then (pc, [])
    else
      let cs := pc.candidateSendQueue
      let pc1 := { pc with candidateSendQueue := ([] : List RTCIceCandidate) }
      if sendOk then
        let r := sendCandidateQueue sendOk fuel pc1
        (r.1, Ev.SendMsg (.candidates cs) :: r.2)
      else
        terminate .Local .SignallingFailed false pc1

/-- Embedding of `queueCandidate` (PeerCall.ts lines 356-376): pushes the candidate onto
`candidateSendQueue`; while the state is Ringing no send is scheduled (the
method returns before arming the delay); otherwise a delay of 500 ms (inbound
direction) or 2000 ms (otherwise) is armed, after which `sendCandidateQueue`
runs.  The second component is the armed delay, `none` when none is armed. -/
def queueCandidate (c : RTCIceCandidate) (pc : PeerCall) : PeerCall × Option Nat :=
  let pc1 := { pc with candidateSendQueue := pc.candidateSendQueue ++ [c] }
  if pc1.state = .Ringing then (pc1, none)
  else (pc1, some (if pc1.direction = some .Inbound then 500 else 2000))

/-- Embedding of `handleNegotiation` (PeerCall.ts lines 186-231), the task body run on the
negotiation chain.  Oracles: `sldOk` is the outcome of
`setLocalDescription()`, `gathering` whether `iceGatheringState` is
`gathering` (triggering the 200 ms wait of line 197), `sendOk` the outcome of
sending the Invite (a rejection is uncaught and aborts the task, line 219).
The embedding keeps the source's control flow exactly: after a successful
Invite send the state is set to InviteSent (line 220), and the invite-timeout
block of lines 224-230 is guarded by re-reading `state === CreateOffer`. -/
def handleNegotiation (sldOk gathering sendOk : Bool) (pc : PeerCall) :
    PeerCall × List Ev :=
  if !sldOk then
    let r := terminate .Local .SetLocalDescription true pc
    (r.1, Ev.SetLocalDesc :: r.2)
  else
    let e0 := Ev.SetLocalDesc :: (if gathering then [Ev.Delay 200] else [])
    if pc.state = .Ended then (pc, e0)
    else
      -- line 209: discard queued candidates, they are in the local description
      let pcA := { pc with candidateSendQueue := ([] : List RTCIceCandidate) }
      if pcA.state = .CreateOffer then
        if sendOk then
          let r1 := setState .InviteSent pcA
          let eB := Ev.SendMsg (.invite pcA.localMedia.sdpMetadata CALL_TIMEOUT_MS) :: r1.2
          let r2 := sendCandidateQueue sendOk 2 r1.1
          -- lines 224-230: the timeout is armed only if state is CreateOffer here
          if r2.1.state = .CreateOffer then
            if r2.1.state = .InviteSent then
              let r3 := hangup .InviteTimeout r2.1
              (r3.1, e0 ++ eB ++ r2.2 ++ [Ev.Delay CALL_TIMEOUT_MS] ++ r3.2)
            else (r2.1, e0 ++ eB ++ r2.2 ++ [Ev.Delay CALL_TIMEOUT_MS])
          else (r2.1, e0 ++ eB ++ r2.2)
        else
          -- the awaited send rejected: the exception leaves handleNegotiation
          (pcA, e0)
      else
        let r2 := sendCandidateQueue sendOk 2 pcA
        if r2.1.state = .CreateOffer then
          if r2.1.state = .InviteSent then
            let r3 := hangup .InviteTimeout r2.1
            (r3.1, e0 ++ r2.2 ++ [Ev.Delay CALL_TIMEOUT_MS] ++ r3.2)
          else (r2.1, e0 ++ r2.2 ++ [Ev.Delay CALL_TIMEOUT_MS])
        else (r2.1, e0 ++ r2.2)

/-- The guard of `handleInvite` (PeerCall.ts line 234): the Invite is
processed only when the state is Fledgling and `opponentPartyId` is unset. -/
def handleInviteGuard (pc : PeerCall) : Bool :=
  pc.state = .Fledgling ∧ pc.opponentPartyId = none

/-- The synchronous part of `handleInvite` after its guard (PeerCall.ts lines
239-251), everything before the first `await` (line 255): commit
`opponentPartyId`, set the direction to Inbound, and merge the incoming
stream metadata if present. -/
def handleInvitePhase1 (content : InviteContent) (partyId : PartyId)
    (pc : PeerCall) : PeerCall × List Ev :=
  let pc1 := { pc with
    opponentPartyId := some partyId
    direction := some .Inbound }
  match content.metadata with
  | some md => updateRemoteSDPStreamMetadata md pc1
  | none => (pc1, [])

/-- The part of `handleInvite` from its first `await` on (PeerCall.ts lines
253-274): set the remote description (failure terminates with
SetRemoteDescription), drain the buffered candidates, terminate if the peer
connection reports no remote tracks, transition to Ringing and arm the expiry
delay of `content.lifetime ?? CALL_TIMEOUT_MS`. -/
def handleInviteRest (remoteDescOk : Bool) (remoteTracksAfter : Nat)
    (content : InviteContent) (pc : PeerCall) : PeerCall × List Ev :=
  if !remoteDescOk then
    let r := terminate .Local .SetRemoteDescription false pc
    (r.1, Ev.SetRemoteDesc :: r.2)
  else
    let rb := addBufferedIceCandidates pc
    if remoteTracksAfter = 0 then
      let r := terminate .Local .SetRemoteDescription false rb.1
      (r.1, Ev.SetRemoteDesc :: (rb.2 ++ r.2))
    else
      let rs := setState .Ringing rb.1
      (rs.1, Ev.SetRemoteDesc :: (rb.2 ++ rs.2
        ++ [Ev.Delay (content.lifetime.getD CALL_TIMEOUT_MS)]))

/-- The continuation of `handleInvite` when the expiry delay fires (PeerCall.ts
lines 276-284), applied to whatever state exists at that moment: if still
Ringing, record `hangupParty = Remote`, transition to Ended, stop all local
media and close the peer connection if not already closed. -/
def handleInviteExpiry (pc : PeerCall) : PeerCall × List Ev :=
  if pc.state = .Ringing then
    let rs := setState .Ended { pc with hangupParty := some CallParty.Remote }
    ({ rs.1 with pcClosed := true },
      rs.2 ++ stopAllMedia rs.1 ++ (if pc.pcClosed then [] else [Ev.ClosePC]))
  else (pc, [])

/-- Embedding of `handleInvite` (PeerCall.ts lines 233-285) up to the arming of the expiry
delay, composed of the guard, the synchronous phase and the awaiting rest. -/
def handleInvite (remoteDescOk : Bool) (remoteTracksAfter : Nat)
    (content : InviteContent) (partyId : PartyId) (pc : PeerCall) :
    PeerCall × List Ev :=
  if handleInviteGuard pc then
    let r1 := handleInvitePhase1 content partyId pc
    let r2 := handleInviteRest remoteDescOk remoteTracksAfter content r1.1
    (r2.1, r1.2 ++ r2.2)
  else (pc, [])

/-- The synchronous part of `handleAnswer` (PeerCall.ts lines 287-304),
everything before its first `await` (line 305): if the state is Ended, or
`opponentPartyId` is already set (to any value, line 295 compares only
against `undefined`), the answer is ignored (`none`); otherwise
`opponentPartyId` is committed to the sender party id. -/
def handleAnswerPhase1 (partyId : PartyId) (pc : PeerCall) : Option PeerCall :=
  if pc.state = .Ended then none
  else if pc.opponentPartyId ≠ none then none
  else some { pc with opponentPartyId := some partyId }

/-- Embedding of `handleAnswer` (PeerCall.ts lines 287-323).  After the commit of
`opponentPartyId` come, in order: drain of the buffered candidates, the
transition to Connecting, the stream-metadata merge (when present), and
`setRemoteDescription` on the answer, whose failure terminates with
SetRemoteDescription. -/
def handleAnswer (remoteDescOk : Bool) (content : AnswerContent)
    (partyId : PartyId) (pc : PeerCall) : PeerCall × List Ev :=
  match handleAnswerPhase1 partyId pc with
  | none => (pc, [])
  | some pc1 =>
    let rb := addBufferedIceCandidates pc1
    let rs := setState .Connecting rb.1
    let rm :=
      match content.metadata with
      | some md => updateRemoteSDPStreamMetadata md rs.1
      | none => (rs.1, [])
    if remoteDescOk then
      (rm.1, rb.2 ++ rs.2 ++ rm.2 ++ [Ev.SetRemoteDesc])
    else
      let rt := terminate .Local .SetRemoteDescription false rm.1
      (rt.1, rb.2 ++ rs.2 ++ rm.2 ++ [Ev.SetRemoteDesc] ++ rt.2)

/-- Embedding of `sendAnswer` (PeerCall.ts lines 325-354): build the Answer message from
the local description and metadata, discard the candidate queue (the
candidates are in the answer), send; failure terminates with SendAnswer and
rethrows; success flushes the candidate queue (empty here, since it was just
discarded and this embedding is sequential). -/
def sendAnswer (sendOk : Bool) (pc : PeerCall) : PeerCall × List Ev :=
  let pc1 := { pc with candidateSendQueue := ([] : List RTCIceCandidate) }
  if sendOk then
    let r := sendCandidateQueue sendOk 2 pc1
    (r.1, Ev.SendMsg (.answer pc.localMedia.sdpMetadata) :: r.2)
  else
    terminate .Local .SendAnswer false pc1

/-- Embedding of `call` (PeerCall.ts lines 101-119): valid only in Fledgling; sets the
direction to Outbound, transitions to WaitLocalMedia, awaits the local-media
promise (`mediaResult` is its outcome); on rejection transitions to Ended and
returns; on success transitions to CreateOffer and adds every local track to
the peer connection, then awaits InviteSent (a pure suspension). -/
def call (mediaResult : Except Unit LocalMedia) (pc : PeerCall) :
    PeerCall × List Ev :=
  if pc.state ≠ .Fledgling then (pc, [])
  else
    let pc1 := { pc with direction := some CallDirection.Outbound }
    let rw := setState .WaitLocalMedia pc1
    match mediaResult with
    | .error _ =>
      let re := setState .Ended rw.1
      (re.1, rw.2 ++ re.2)
    | .ok media =>
      let pc2 := { rw.1 with localMedia := media }
      let ro := setState .CreateOffer pc2
      (ro.1, rw.2 ++ ro.2 ++ media.tracks.map Ev.AddTrack)

/-- Embedding of `answer` (PeerCall.ts lines 121-157): valid only in Ringing; transitions
to WaitLocalMedia, awaits media (Ended on rejection), transitions to
CreateAnswer, adds the local tracks, creates the answer (failure terminates
CreateAnswer), sets the local description (failure terminates
SetLocalDescription), transitions to Connecting, waits 200 ms for candidate
gathering and sends the Answer. -/
def answer (mediaResult : Except Unit LocalMedia)
    (createAnswerOk setLocalDescOk sendOk : Bool) (pc : PeerCall) :
    PeerCall × List Ev :=
  if pc.state ≠ .Ringing then (pc, [])
  else
    let rw := setState .WaitLocalMedia pc
    match mediaResult with
    | .error _ =>
      let re := setState .Ended rw.1
      (re.1, rw.2 ++ re.2)
    | .ok media =>
      let pc2 := { rw.1 with localMedia := media }
      let rc := setState .CreateAnswer pc2
      let evT := media.tracks.map Ev.AddTrack
      if !createAnswerOk then
        let rt := terminate .Local .CreateAnswer true rc.1
        (rt.1, rw.2 ++ rc.2 ++ evT ++ rt.2)
      else if !setLocalDescOk then
        let rt := terminate .Local .SetLocalDescription true rc.1
        (rt.1, rw.2 ++ rc.2 ++ evT ++ [Ev.SetLocalDesc] ++ rt.2)
      else
        let rg := setState .Connecting rc.1
        let ra := sendAnswer sendOk rg.1
        (ra.1, rw.2 ++ rc.2 ++ evT ++ [Ev.SetLocalDesc] ++ rg.2
          ++ [Ev.Delay 200] ++ ra.2)

/-- Modelled from the spec: `handleRemoteIceCandidates` is invoked at
PeerCall.ts line 95 but is not defined anywhere in the provided sources.
Spec sections 4.3 and 8 (invariants 5 and 6): while `opponentPartyId` is
unset, the candidates are filed into `remoteCandidateBuffer` under the sender
party id; once it is set, candidates from the committed opponent are added to
the peer connection and candidates from any other party are ignored. -/
def handleRemoteIceCandidates (content : CandidatesContent) (partyId : PartyId)
    (pc : PeerCall) : PeerCall × List Ev :=
  match pc.opponentPartyId with
  | none =>
    let buf := pc.remoteCandidateBuffer.getD []
    let buf1 :=
      if buf.any fun e => e.1 = partyId then
        buf.map fun e =>
          if e.1 = partyId then (e.1, e.2 ++ content.candidates) else e
      else buf ++ [(partyId, content.candidates)]
    ({ pc with remoteCandidateBuffer := some buf1 }, [])
  | some opp =>
    if opp = partyId then (pc, addIceCandidates content.candidates)
    else (pc, [])

/-- Modelled from the spec: the `EventType.Hangup` case of the dispatch switch
is empty in the source (PeerCall.ts lines 97-98, a bare case label).  Spec
section 4.1: Hangup terminates with `(Remote, UserHangup, emit=false)`. -/
def handleHangupMessage (pc : PeerCall) : PeerCall × List Ev :=
  terminate .Remote .UserHangup false pc

/-- Embedding of `handleIncomingSignallingMessage` (PeerCall.ts lines 86-99): dispatch on
the message kind; Invite, Answer and Candidates go to their handlers, Hangup
to the (spec-modelled) hangup branch, and every kind the switch has no case
for falls through with no effect. -/
def handleIncomingSignallingMessage (remoteDescOk : Bool)
    (remoteTracksAfter : Nat) (msg : SignallingMessage) (partyId : PartyId)
    (pc : PeerCall) : PeerCall × List Ev :=
  match msg with
  | .invite c => handleInvite remoteDescOk remoteTracksAfter c partyId pc
  | .answer c => handleAnswer remoteDescOk c partyId pc
  | .candidates c => handleRemoteIceCandidates c partyId pc
  | .hangupMsg => handleHangupMessage pc
  | _ => (pc, [])

/-!
The negotiation chain.  PeerCall.ts lines 70-73: every `onNegotiationNeeded`
callback runs

  `outer.responsePromiseChain = outer.responsePromiseChain?.then(promiseCreator) ?? promiseCreator()`

so task number k+1 is attached with `.then` to the promise of task number k
and therefore begins only once that promise has settled, while task 0 starts
at once.  The counters below are the shallow embedding of that discipline:
`arrived` counts the callbacks so far, `started` the tasks whose
`handleNegotiation` invocation has begun, `finished` those whose promise has
settled.  A task may start only when it has arrived and the previous task's
promise has settled (`started = finished`) — exactly the `.then` chaining —
and only the single running task may finish.
-/

/-- Counters of the negotiation promise chain of PeerCall.ts line 72. -/
structure NegState where
  arrived : Nat
  started : Nat
  finished : Nat
deriving DecidableEq, Repr

/-- Observable events of the negotiation chain: a callback arrival, the start
of task i (its `setLocalDescription`, the first action of
`handleNegotiation`, commits here), and the settling of task i. -/
inductive NegEv
  | arrive
  | start (i : Nat)
  | finish (i : Nat)
deriving DecidableEq, Repr

/-- One step of the negotiation chain: arrivals are unconstrained; task
`started` may begin only when it has arrived and the chain promise of the
previous task has settled (`started = finished`, the `.then` guard of line
72); only the running task can settle. -/
inductive NegStep : NegState → NegEv → NegState → Prop
  | arrive (s : NegState) :
      NegStep s .arrive { s with arrived := s.arrived + 1 }
  | start (s : NegState) (h1 : s.started < s.arrived)
      (h2 : s.started = s.finished) :
      NegStep s (.start s.started) { s with started := s.started + 1 }
  | finish (s : NegState) (h : s.finished < s.started) :
      NegStep s (.finish s.finished) { s with finished := s.finished + 1 }

/-- Traces of the negotiation chain from the initial state (no callback yet,
nothing running). -/
inductive NegReachable : NegState → List NegEv → Prop
  | init : NegReachable ⟨0, 0, 0⟩ []
  | step {s : NegState} {tr : List NegEv} {e : NegEv} {s' : NegState} :
      NegReachable s tr → NegStep s e s' → NegReachable s' (tr ++ [e])

/-- Projection of a chain trace to the start and finish events. -/
def negProj (tr : List NegEv) : List NegEv :=
  tr.filter fun e =>
    match e with
    | .arrive => false
    | _ => true

/-- The canonical strictly serialized FIFO trace with `f` finished tasks and
`st` started ones (`st = f` or `st = f + 1`): start 0, finish 0, start 1,
finish 1, and so on. -/
def negCanon (st f : Nat) : List NegEv :=
  ((List.range f).flatMap fun i => [NegEv.start i, NegEv.finish i])
    ++ (if st = f then [] else [NegEv.start f])

/-!  Theorems settling the claims.  -/

/-- C1: for every call to terminate(party, reason, emit) on a PeerCall not
already Ended, afterwards hangupParty = party and hangupReason = reason,
the state is Ended, every local track has been stopped, the peer connection
is closed if it was not already closed, all outstanding delays are cancelled,
and emitUpdate is called iff emit is true; on an already-Ended call terminate
returns with no change (so the hangup fields are assigned exactly once, at
the transition into Ended). -/
theorem terminate_spec_c1 (pc : PeerCall) (party : CallParty)
    (reason : CallErrorCode) (emit : Bool) :
    (pc.state = .Ended → terminate party reason emit pc = (pc, [])) ∧
    (pc.state ≠ .Ended →
      (terminate party reason emit pc).1.hangupParty = some party ∧
      (terminate party reason emit pc).1.hangupReason = some reason ∧
      (terminate party reason emit pc).1.state = .Ended ∧
      (∀ t ∈ pc.localMedia.tracks,
        Ev.StopTrack t ∈ (terminate party reason emit pc).2) ∧
      (terminate party reason emit pc).1.pcClosed = true ∧
      ((Ev.ClosePC ∈ (terminate party reason emit pc).2) ↔ pc.pcClosed = false) ∧
      Ev.CancelTimers ∈ (terminate party reason emit pc).2 ∧
      (terminate party reason emit pc).1.timersCancelled = true ∧
      ((Ev.EmitUpdate ∈ (terminate party reason emit pc).2) ↔ emit = true)) := by
  constructor
  · intro h
    simp [terminate, h]
  · intro h
    simp only [terminate, if_neg h]
    cases h1 : pc.pcClosed <;> cases h2 : emit <;>
      simp [stopAllMedia, h1, h2]

/-- Concrete input for the C1 witness: a Connected call with one local track
and an open peer connection. -/
def pcW1 : PeerCall :=
  { state := .Connected
    direction := some .Outbound
    localMedia := { tracks := [⟨"mic"⟩] } }

/-- Witness for C1 at a concrete Connected call. -/
theorem terminate_spec_c1_witness :
    (terminate .Local .UserHangup true pcW1).1.hangupParty = some .Local ∧
    (terminate .Local .UserHangup true pcW1).1.hangupReason = some .UserHangup ∧
    (terminate .Local .UserHangup true pcW1).1.state = .Ended :=
  ⟨((terminate_spec_c1 pcW1 .Local .UserHangup true).2 (by decide)).1,
   ((terminate_spec_c1 pcW1 .Local .UserHangup true).2 (by decide)).2.1,
   ((terminate_spec_c1 pcW1 .Local .UserHangup true).2 (by decide)).2.2.1⟩

/-- Concrete outbound call in CreateOffer, about to run handleNegotiation. -/
def pcC2 : PeerCall :=
  { state := .CreateOffer
    direction := some .Outbound }

/-- C2 (code bug): an outbound call whose handleNegotiation sends the Invite
successfully ends that task in state InviteSent, but the 60 000 ms
invite-timeout delay of PeerCall.ts lines 224-230 is never armed, because the
guard re-reads `state === CreateOffer` after the state was just set to
InviteSent on line 220; the trace of the whole task contains no
CALL_TIMEOUT_MS delay and no Hangup message, and no hangup reason is ever
recorded, contradicting the claimed transition to Ended/InviteTimeout. -/
theorem inviteTimeout_never_armed_c2 :
    (handleNegotiation true false true pcC2).1.state = .InviteSent ∧
    (handleNegotiation true false true pcC2).2 =
      [Ev.SetLocalDesc, Ev.SendMsg (.invite [] CALL_TIMEOUT_MS),
        Ev.SetState .InviteSent, Ev.EmitUpdate] ∧
    Ev.Delay CALL_TIMEOUT_MS ∉ (handleNegotiation true false true pcC2).2 ∧
    Ev.SendMsg (.hangup .InviteTimeout) ∉ (handleNegotiation true false true pcC2).2 ∧
    (handleNegotiation true false true pcC2).1.hangupReason = none := by
  decide

/-- C10: call() outside Fledgling and answer() outside Ringing return with
every PeerCall field unchanged and an empty action trace (no peer-connection
method and no host hook is invoked). -/
theorem noop_guards_c10 (pc : PeerCall) (media : Except Unit LocalMedia)
    (b1 b2 b3 : Bool) :
    (pc.state ≠ .Fledgling → call media pc = (pc, [])) ∧
    (pc.state ≠ .Ringing → answer media b1 b2 b3 pc = (pc, [])) := by
  constructor
  · intro h
    simp [call, h]
  · intro h
    simp [answer, h]

/-- Concrete input for the C10 witness: a Connected call. -/
def pcW10 : PeerCall := { state := .Connected }

/-- Witness for C10 at a concrete Connected call. -/
theorem noop_guards_c10_witness :
    call (.ok {}) pcW10 = (pcW10, []) ∧
    answer (.ok {}) true true true pcW10 = (pcW10, []) :=
  ⟨(noop_guards_c10 pcW10 (.ok {}) true true true).1 (by decide),
   (noop_guards_c10 pcW10 (.ok {}) true true true).2 (by decide)⟩

/-- Draining the candidate buffer touches neither the call state nor the
committed opponent party id. -/
theorem addBufferedIceCandidates_preserves (pc : PeerCall) :
    (addBufferedIceCandidates pc).1.state = pc.state ∧
    (addBufferedIceCandidates pc).1.opponentPartyId = pc.opponentPartyId ∧
    (addBufferedIceCandidates pc).1.candidateSendQueue = pc.candidateSendQueue := by
  unfold addBufferedIceCandidates
  cases h : pc.remoteCandidateBuffer
  · simp
  · simp only
    split <;> simp

/-- C3: handleInvite processes an Invite only when the state is Fledgling and
opponentPartyId is unset (otherwise it returns unchanged with no action), and
both handleInvite and handleAnswer commit opponentPartyId to the sender party
id in their synchronous phase, before their first await: the phase-one parts
(the code before the first suspension point) already carry the commitment. -/
theorem opponent_commit_c3 (content : InviteContent) (acontent : AnswerContent)
    (partyId : PartyId) (pc : PeerCall) (remoteDescOk : Bool)
    (remoteTracksAfter : Nat) :
    (¬(pc.state = .Fledgling ∧ pc.opponentPartyId = none) →
      handleInvite remoteDescOk remoteTracksAfter content partyId pc = (pc, [])) ∧
    ((pc.state = .Fledgling ∧ pc.opponentPartyId = none) →
      (handleInvitePhase1 content partyId pc).1.opponentPartyId = some partyId ∧
      handleInvite remoteDescOk remoteTracksAfter content partyId pc =
        ((handleInviteRest remoteDescOk remoteTracksAfter content
            (handleInvitePhase1 content partyId pc).1).1,
          (handleInvitePhase1 content partyId pc).2
            ++ (handleInviteRest remoteDescOk remoteTracksAfter content
                  (handleInvitePhase1 content partyId pc).1).2)) ∧
    ((pc.state = .Ended ∨ pc.opponentPartyId ≠ none) →
      handleAnswerPhase1 partyId pc = none ∧
      handleAnswer remoteDescOk acontent partyId pc = (pc, [])) ∧
    (pc.state ≠ .Ended → pc.opponentPartyId = none →
      handleAnswerPhase1 partyId pc =
        some { pc with opponentPartyId := some partyId }) := by
  refine ⟨?_, ?_, ?_, ?_⟩
  · intro h
    have hg : handleInviteGuard pc = false := by
      simp only [handleInviteGuard]
      simpa using h
    simp [handleInvite, hg]
  · intro h
    have hg : handleInviteGuard pc = true := by
      simp only [handleInviteGuard]
      simpa using h
    refine ⟨?_, ?_⟩
    · simp only [handleInvitePhase1]
      cases content.metadata <;> simp [updateRemoteSDPStreamMetadata]
    · simp [handleInvite, hg]
  · intro h
    have hp : handleAnswerPhase1 partyId pc = none := by
      rcases h with h | h <;> simp [handleAnswerPhase1, h]
    exact ⟨hp, by simp [handleAnswer, hp]⟩
  · intro h1 h2
    simp [handleAnswerPhase1, h1, h2]

/-- Concrete input for the C3 witness: a fresh Fledgling call and a Connected
call with a committed opponent. -/
def pcW3 : PeerCall := {}

/-- Second concrete input for the C3 witness. -/
def pcW3' : PeerCall := { state := .Connected, opponentPartyId := some (some "B") }

/-- Witness for C3: the fresh call commits the party id in the synchronous
phase; the already-committed call ignores a competing Invite and Answer. -/
theorem opponent_commit_c3_witness :
    (handleInvitePhase1 {} (some "Y") pcW3).1.opponentPartyId = some (some "Y") ∧
    handleInvite true 1 {} (some "C") pcW3' = (pcW3', []) ∧
    handleAnswer true {} (some "C") pcW3' = (pcW3', []) :=
  ⟨((opponent_commit_c3 {} {} (some "Y") pcW3 true 1).2.1 (by decide)).1,
   (opponent_commit_c3 {} {} (some "C") pcW3' true 1).1 (by decide),
   ((opponent_commit_c3 {} {} (some "C") pcW3' true 1).2.2.1 (by decide)).2⟩

/-- C4 (amended): for a committed opponent party id that is a non-null,
non-empty string, draining the buffer adds exactly the candidates buffered
under that id, in their buffered order, skipping only candidates with both
sdpMid and sdpMLineIndex unset; the buffer is destroyed afterwards, so the
candidates buffered under every other party id are discarded.  (The original
claim also covered the legacy null party id, which the truthiness guard of
PeerCall.ts line 423 excludes; see the counterexample.) -/
theorem buffered_drain_c4 (pc : PeerCall) (s : String)
    (buf : List (PartyId × List RTCIceCandidate))
    (h1 : pc.opponentPartyId = some (some s)) (h2 : s ≠ "")
    (h3 : pc.remoteCandidateBuffer = some buf) :
    (addBufferedIceCandidates pc).1 = { pc with remoteCandidateBuffer := none } ∧
    (addBufferedIceCandidates pc).2 =
      addIceCandidates ((bufLookup buf (some s)).getD []) := by
  have ht : opponentTruthy pc.opponentPartyId = true := by
    simp [opponentTruthy, partyIdTruthy, h1, h2]
  rw [h1] at ht
  simp only [addBufferedIceCandidates, h3, h1]
  cases hl : bufLookup buf (some s) <;> simp [hl, addIceCandidates, ht]

/-- Concrete candidate with an sdpMid, used by the C4 theorems. -/
def candW : RTCIceCandidate := { candidate := "a=cand", sdpMid := some "0" }

/-- Concrete call whose opponent was committed with the legacy null party id
while a candidate for exactly that party id sits in the buffer. -/
def pcC4null : PeerCall :=
  { state := .Ringing
    direction := some .Inbound
    opponentPartyId := some none
    remoteCandidateBuffer := some [(none, [candW])] }

/-- C4 counterexample: with the legacy null party id committed as
opponentPartyId, addBufferedIceCandidates does nothing — the candidate
buffered under exactly that party id is never added and the buffer is not
destroyed — because `null` is falsy in the guard of PeerCall.ts line 423. -/
theorem buffered_drain_null_counterexample_c4 :
    pcC4null.opponentPartyId = some none ∧
    bufLookup (pcC4null.remoteCandidateBuffer.getD []) none = some [candW] ∧
    addBufferedIceCandidates pcC4null = (pcC4null, []) ∧
    (addBufferedIceCandidates pcC4null).1.remoteCandidateBuffer ≠ none := by
  decide

/-- Concrete call for the C4 witness: opponent "Y" committed, candidates
buffered under "X" and "Y", one of the "Y" candidates having neither sdpMid
nor sdpMLineIndex. -/
def pcW4 : PeerCall :=
  { state := .Ringing
    direction := some .Inbound
    opponentPartyId := some (some "Y")
    remoteCandidateBuffer :=
      some [(some "X", [{ candidate := "x1", sdpMid := some "0" }]),
            (some "Y", [candW, { candidate := "end" },
              { candidate := "y2", sdpMLineIndex := some 1 }])] }

/-- Witness for C4: the two usable "Y" candidates are added in buffered order,
the blank one is skipped, the "X" candidate is discarded with the buffer. -/
theorem buffered_drain_c4_witness :
    (addBufferedIceCandidates pcW4).1 =
      { pcW4 with remoteCandidateBuffer := none } ∧
    (addBufferedIceCandidates pcW4).2 =
      [Ev.AddIceCandidate candW,
        Ev.AddIceCandidate { candidate := "y2", sdpMLineIndex := some 1 }] := by
  have h := buffered_drain_c4 pcW4 "Y"
    [(some "X", [{ candidate := "x1", sdpMid := some "0" }]),
     (some "Y", [candW, { candidate := "end" },
       { candidate := "y2", sdpMLineIndex := some 1 }])]
    (by decide) (by decide) (by decide)
  exact ⟨h.1, by rw [h.2]; decide⟩

/-- C5 counterexample: an Answer whose party id equals the already-committed
opponentPartyId, on a call that is not Ended, is nevertheless ignored —
PeerCall.ts line 295 rejects every Answer once opponentPartyId is set,
regardless of the incoming party id — while the claim requires this answer to
be processed (the ignore condition it states, set-and-differs, is false
here). -/
theorem handleAnswer_same_party_counterexample_c5 :
    pcW3'.state ≠ .Ended ∧
    pcW3'.opponentPartyId = some (some "B") ∧
    handleAnswer true {} (some "B") pcW3' = (pcW3', []) ∧
    (handleAnswer true {} (some "B") pcW3').1.state ≠ .Connecting := by
  decide

/-- C5 (amended): handleAnswer ignores an Answer (no field changes and no
action is taken) exactly when the state is Ended or opponentPartyId is
already set — to any value, including the incoming party id itself; in every
other case it records opponentPartyId, drains the buffered candidates,
transitions to Connecting, merges the stream metadata when present, and
applies the answer as the remote description, in that order. -/
theorem handleAnswer_c5 (remoteDescOk : Bool) (content : AnswerContent)
    (partyId : PartyId) (pc : PeerCall) :
    ((pc.state = .Ended ∨ pc.opponentPartyId ≠ none) →
      handleAnswer remoteDescOk content partyId pc = (pc, [])) ∧
    (pc.state ≠ .Ended → pc.opponentPartyId = none →
      (handleAnswer true content partyId pc).1.opponentPartyId = some partyId ∧
      (handleAnswer true content partyId pc).1.state = .Connecting ∧
      (handleAnswer true content partyId pc).2 =
        (addBufferedIceCandidates
            { pc with opponentPartyId := some partyId }).2
          ++ [Ev.SetState .Connecting, Ev.EmitUpdate]
          ++ (match content.metadata with
              | some _ => [Ev.MergeMetadata]
              | none => [])
          ++ [Ev.SetRemoteDesc]) := by
  constructor
  · intro h
    have hp : handleAnswerPhase1 partyId pc = none := by
      rcases h with h | h <;> simp [handleAnswerPhase1, h]
    simp [handleAnswer, hp]
  · intro h1 h2
    have hp : handleAnswerPhase1 partyId pc =
        some { pc with opponentPartyId := some partyId } := by
      simp [handleAnswerPhase1, h1, h2]
    have hpre := addBufferedIceCandidates_preserves
      { pc with opponentPartyId := some partyId }
    simp only [handleAnswer, hp]
    cases hm : content.metadata <;>
      simp [setState, updateRemoteSDPStreamMetadata, hm, hpre.2.1]

/-- Concrete call for the C5 witness: outbound InviteSent with no committed
opponent and one buffered candidate under "B". -/
def pcW5 : PeerCall :=
  { state := .InviteSent
    direction := some .Outbound
    remoteCandidateBuffer := some [(some "B", [candW])] }

/-- Witness for C5: a first Answer from "B" with metadata is processed in the
claimed order. -/
theorem handleAnswer_c5_witness :
    (handleAnswer true { metadata := some [("s1", {})] } (some "B") pcW5).1.opponentPartyId
      = some (some "B") ∧
    (handleAnswer true { metadata := some [("s1", {})] } (some "B") pcW5).1.state
      = .Connecting ∧
    (handleAnswer true { metadata := some [("s1", {})] } (some "B") pcW5).2 =
      [Ev.AddIceCandidate candW, Ev.SetState .Connecting, Ev.EmitUpdate,
        Ev.MergeMetadata, Ev.SetRemoteDesc] := by
  have h := (handleAnswer_c5 true { metadata := some [("s1", {})] } (some "B") pcW5).2
    (by decide) (by decide)
  refine ⟨h.1, h.2.1, ?_⟩
  rw [h.2.2]
  decide

/-- C6: an inbound Hangup message terminates the call with hangupParty =
Remote, hangupReason = UserHangup and no emitUpdate (emit = false), leaving
an already-Ended call untouched; messages of every kind the dispatch switch
has no case for leave the PeerCall unchanged with no action. -/
theorem hangup_dispatch_c6 (pc : PeerCall) (partyId : PartyId) (rdo : Bool)
    (rta : Nat) :
    (handleIncomingSignallingMessage rdo rta .hangupMsg partyId pc =
      terminate .Remote .UserHangup false pc) ∧
    (pc.state ≠ .Ended →
      (handleIncomingSignallingMessage rdo rta .hangupMsg partyId pc).1.hangupParty
          = some .Remote ∧
      (handleIncomingSignallingMessage rdo rta .hangupMsg partyId pc).1.hangupReason
          = some .UserHangup ∧
      (handleIncomingSignallingMessage rdo rta .hangupMsg partyId pc).1.state
          = .Ended ∧
      Ev.EmitUpdate ∉
        (handleIncomingSignallingMessage rdo rta .hangupMsg partyId pc).2) ∧
    (pc.state = .Ended →
      handleIncomingSignallingMessage rdo rta .hangupMsg partyId pc = (pc, [])) ∧
    (handleIncomingSignallingMessage rdo rta .reject partyId pc = (pc, [])) ∧
    (handleIncomingSignallingMessage rdo rta .selectAnswer partyId pc = (pc, [])) ∧
    (handleIncomingSignallingMessage rdo rta .negotiate partyId pc = (pc, [])) ∧
    (handleIncomingSignallingMessage rdo rta .sdpStreamMetadataChanged partyId pc
      = (pc, [])) ∧
    (handleIncomingSignallingMessage rdo rta .replaces partyId pc = (pc, [])) ∧
    (handleIncomingSignallingMessage rdo rta .assertedIdentity partyId pc
      = (pc, [])) := by
  refine ⟨rfl, ?_, ?_, rfl, rfl, rfl, rfl, rfl, rfl⟩
  · intro h
    simp only [handleIncomingSignallingMessage, handleHangupMessage, terminate,
      if_neg h]
    cases h1 : pc.pcClosed <;> simp [stopAllMedia, h1]
  · intro h
    simp [handleIncomingSignallingMessage, handleHangupMessage, terminate, h]

/-- Witness for C6: a Hangup delivered to a Connected call. -/
theorem hangup_dispatch_c6_witness :
    (handleIncomingSignallingMessage true 1 .hangupMsg (some "B") pcW10).1.hangupParty
      = some .Remote ∧
    (handleIncomingSignallingMessage true 1 .hangupMsg (some "B") pcW10).1.state
      = .Ended :=
  ⟨((hangup_dispatch_c6 pcW10 (some "B") true 1).2.1 (by decide)).1,
   ((hangup_dispatch_c6 pcW10 (some "B") true 1).2.1 (by decide)).2.2.1⟩

/-- C7: queueCandidate appends to the queue in arrival order; while the state
is Ringing no send is scheduled; otherwise a delay of 500 ms (inbound) or
2000 ms (outbound) is armed, after which sendCandidateQueue drains the entire
queue into a single Candidates message preserving order; if that send fails
the call is terminated with hangupParty = Local and hangupReason =
SignallingFailed and the candidates are not requeued. -/
theorem trickle_c7 (c : RTCIceCandidate) (pc : PeerCall) :
    ((queueCandidate c pc).1.candidateSendQueue = pc.candidateSendQueue ++ [c]) ∧
    (pc.state = .Ringing → (queueCandidate c pc).2 = none) ∧
    (pc.state ≠ .Ringing →
      (queueCandidate c pc).2 =
        some (if pc.direction = some .Inbound then 500 else 2000)) ∧
    (pc.candidateSendQueue ≠ [] → pc.state ≠ .Ended →
      sendCandidateQueue true 2 pc =
        ({ pc with candidateSendQueue := [] },
          [Ev.SendMsg (.candidates pc.candidateSendQueue)])) ∧
    (pc.candidateSendQueue ≠ [] → pc.state ≠ .Ended →
      (sendCandidateQueue false 2 pc).1.state = .Ended ∧
      (sendCandidateQueue false 2 pc).1.hangupParty = some .Local ∧
      (sendCandidateQueue false 2 pc).1.hangupReason = some .SignallingFailed ∧
      (sendCandidateQueue false 2 pc).1.candidateSendQueue = []) := by
  refine ⟨by simp only [queueCandidate]; split <;> rfl, ?_, ?_, ?_, ?_⟩
  · intro h
    simp [queueCandidate, h]
  · intro h
    simp [queueCandidate, h]
  · intro h1 h2
    simp [sendCandidateQueue, h1, h2]
  · intro h1 h2
    simp [sendCandidateQueue, h1, h2, terminate]

/-- Concrete input for the C7 witness: an outbound Connecting call with two
candidates already queued. -/
def pcW7 : PeerCall :=
  { state := .Connecting
    direction := some .Outbound
    candidateSendQueue := [candW, { candidate := "w2", sdpMLineIndex := some 0 }] }

/-- Witness for C7: queueing while Connecting arms the 2000 ms delay and the
drain sends the whole queue as one message; a failing send ends the call
Local/SignallingFailed. -/
theorem trickle_c7_witness :
    (queueCandidate { candidate := "w3" } pcW7).2 = some 2000 ∧
    sendCandidateQueue true 2 pcW7 =
      ({ pcW7 with candidateSendQueue := [] },
        [Ev.SendMsg (.candidates
          [candW, { candidate := "w2", sdpMLineIndex := some 0 }])]) ∧
    (sendCandidateQueue false 2 pcW7).1.hangupReason = some .SignallingFailed :=
  ⟨(trickle_c7 { candidate := "w3" } pcW7).2.2.1 (by decide),
   (trickle_c7 { candidate := "w3" } pcW7).2.2.2.1 (by decide) (by decide),
   ((trickle_c7 { candidate := "w3" } pcW7).2.2.2.2 (by decide) (by decide)).2.2.1⟩

/-- C9 counterexample: on a fresh outbound call whose local-media promise
rejects, call() ends the call but records no hangup reason at all — in
particular not NoUserMedia; the whole trace holds only the two state
transitions (PeerCall.ts lines 109-112 run setState(Ended) without calling
terminate). -/
theorem call_media_failure_counterexample_c9 :
    (call (.error ()) pcW3).1.state = .Ended ∧
    (call (.error ()) pcW3).1.hangupReason = none ∧
    (call (.error ()) pcW3).1.hangupParty = none ∧
    (call (.error ()) pcW3).2 =
      [Ev.SetState .WaitLocalMedia, Ev.EmitUpdate,
        Ev.SetState .Ended, Ev.EmitUpdate] := by
  decide

/-- C9 (amended): if the local-media promise passed to call() rejects, the
PeerCall transitions to Ended — leaving the hangup fields unchanged, so no
reason (NoUserMedia or otherwise) is recorded — and call() returns without
adding any track to the peer connection. -/
theorem call_media_failure_c9 (pc : PeerCall) (h : pc.state = .Fledgling) :
    (call (.error ()) pc).1.state = .Ended ∧
    (call (.error ()) pc).1.hangupReason = pc.hangupReason ∧
    (call (.error ()) pc).1.hangupParty = pc.hangupParty ∧
    (call (.error ()) pc).2 =
      [Ev.SetState .WaitLocalMedia, Ev.EmitUpdate,
        Ev.SetState .Ended, Ev.EmitUpdate] := by
  simp [call, setState, h]

/-- Concrete input for the C9 witness: a Fledgling call with one track in the
initial media handle. -/
def pcW9 : PeerCall := { localMedia := { tracks := [⟨"cam"⟩] } }

/-- Witness for C9 at a concrete Fledgling call. -/
theorem call_media_failure_c9_witness :
    (call (.error ()) pcW9).1.state = .Ended ∧
    (call (.error ()) pcW9).2 =
      [Ev.SetState .WaitLocalMedia, Ev.EmitUpdate,
        Ev.SetState .Ended, Ev.EmitUpdate] :=
  ⟨(call_media_failure_c9 pcW9 (by decide)).1,
   (call_media_failure_c9 pcW9 (by decide)).2.2.2⟩

/-- Starting task n extends the canonical serialized trace. -/
theorem negCanon_start (n : Nat) :
    negCanon (n + 1) n = negCanon n n ++ [NegEv.start n] := by
  simp [negCanon, Nat.succ_ne_self]

/-- Finishing task n extends the canonical serialized trace. -/
theorem negCanon_finish (n : Nat) :
    negCanon (n + 1) (n + 1) = negCanon (n + 1) n ++ [NegEv.finish n] := by
  simp [negCanon, List.range_succ, Nat.succ_ne_self]

/-- Embedding of `negProj` drops arrivals and keeps starts and finishes. -/
theorem negProj_append (tr tr' : List NegEv) :
    negProj (tr ++ tr') = negProj tr ++ negProj tr' := by
  simp [negProj]

/-- C8: renegotiation tasks on the promise chain of PeerCall.ts line 72 are
serialized — in every reachable state at most one task is running
(`started ≤ finished + 1`) and no task starts before arriving — and the
projection of every trace to starts and finishes is the canonical strictly
alternating FIFO sequence start 0, finish 0, start 1, finish 1, ...: task
i + 1 (and so its setLocalDescription, the first action of
handleNegotiation) begins only after task i has fully completed, in the
arrival order of the onNegotiationNeeded callbacks. -/
theorem negotiation_serialized_c8 (s : NegState) (tr : List NegEv)
    (h : NegReachable s tr) :
    s.finished ≤ s.started ∧ s.started ≤ s.finished + 1 ∧
    s.started ≤ s.arrived ∧ negProj tr = negCanon s.started s.finished := by
  induction h with
  | init => simp [negProj, negCanon]
  | @step s tr e s' hr hs ih =>
    obtain ⟨ih1, ih2, ih3, ih4⟩ := ih
    cases hs with
    | arrive =>
      refine ⟨ih1, ih2, Nat.le_succ_of_le ih3, ?_⟩
      rw [negProj_append, ih4]
      simp [negProj]
    | start h1 h2 =>
      refine ⟨Nat.le_succ_of_le ih1, Nat.succ_le_succ (le_of_eq h2), h1, ?_⟩
      have hp : negProj [NegEv.start s.started] = [NegEv.start s.started] := by
        simp [negProj]
      rw [negProj_append, ih4, hp, h2, ← negCanon_start]
    | finish h =>
      have hse : s.started = s.finished + 1 := Nat.le_antisymm ih2 h
      refine ⟨h, Nat.le_succ_of_le ih2, ih3, ?_⟩
      have hp : negProj [NegEv.finish s.finished] = [NegEv.finish s.finished] := by
        simp [negProj]
      rw [negProj_append, ih4, hp, hse, ← negCanon_finish]

/-- Witness for C8: a concrete chain run with two arrivals — the second
arriving while the first task is still running — whose start/finish
projection is the canonical serialized trace for two completed tasks. -/
theorem negotiation_serialized_c8_witness :
    negProj [NegEv.arrive, NegEv.start 0, NegEv.arrive, NegEv.finish 0,
      NegEv.start 1, NegEv.finish 1] = negCanon 2 2 :=
  (negotiation_serialized_c8 _ _
    (((((NegReachable.init.step (NegStep.arrive _)).step
        (NegStep.start _ (by decide) rfl)).step
        (NegStep.arrive _)).step
        (NegStep.finish _ (by decide))).step
        (NegStep.start _ (by decide) rfl)
      |>.step (NegStep.finish _ (by decide)))).2.2.2

end HydrogenCalls
